import Mathlib

/-!
Shallow embedding of `src/main.rs` of the lsp_installer repository: the
interactive filter-and-select state machine (the `StatefulList` cursor
container, the case-insensitive prefix filter, and the `run_app` event
loop), together with theorems settling the frozen claims about it.

Modelling conventions:
* Rust `String` is modelled as `List Char`; `String::to_lowercase` is
  modelled character-wise by `Char.toLower` (the catalog is ASCII).
* Rust `usize` arithmetic is modelled on `Nat`; the subtraction
  `self.items.len() - 1`, which panics on underflow in checked builds,
  is modelled by returning `none` when `items.len() = 0` at the point
  the source would compute `0 - 1`.
* The terminal I/O shell is modelled as a finite trace of inputs, each
  either a key/mouse/resize event or an I/O error (standing for a
  failing `terminal.draw(..)?` or `event::read()?`); `run_app` folds the
  pure per-event dispatch over the trace.
-/

namespace LspInstaller

/-- `enum InputMode { Normal, Editing }` from the source. -/
inductive InputMode where
  | Normal
  | Editing
  deriving DecidableEq, Repr

/-- `struct StatefulList<T> { state: ListState, items: Vec<T> }`; of the
tui `ListState` only the `selected: Option<usize>` field is ever used by
the core, so the embedding keeps exactly that field. -/
structure StatefulList (α : Type) where
  selected : Option Nat
  items : List α
  deriving DecidableEq, Repr

/-- `StatefulList::with_items`: fresh list with index 0 selected. -/
def StatefulList.with_items (items : List α) : StatefulList α :=
  { selected := some 0, items := items }

/-- `StatefulList::next`: on `Some(i)` the source computes
`if i >= self.items.len() - 1 { 0 } else { i + 1 }`; the subtraction
underflows (panics in checked builds) when `items` is empty, modelled by
`none`. On `None` it selects `Some(0)` unconditionally. -/
def StatefulList.next (l : StatefulList α) : Option (StatefulList α) :=
  match l.selected with
  | some i =>
      if l.items.length = 0 then none
      else some { l with selected := some (if l.items.length - 1 ≤ i then 0 else i + 1) }
  | none => some { l with selected := some 0 }

/-- `StatefulList::previous`: on `Some(0)` the source computes
`self.items.len() - 1`, which underflows (panics in checked builds) when
`items` is empty, modelled by `none`; on `Some(i)` with `i ≠ 0` it
selects `i - 1`; on `None` it selects `Some(0)` unconditionally. -/
def StatefulList.previous (l : StatefulList α) : Option (StatefulList α) :=
  match l.selected with
  | some i =>
      if i = 0 then
        if l.items.length = 0 then none
        else some { l with selected := some (l.items.length - 1) }
      else some { l with selected := some (i - 1) }
  | none => some { l with selected := some 0 }

/-- `StatefulList::unselect`. -/
def StatefulList.unselect (l : StatefulList α) : StatefulList α :=
  { l with selected := none }

/-- Rust `str::to_lowercase`, modelled character-wise. -/
def to_lowercase (s : List Char) : List Char := s.map Char.toLower

/-- Rust `str::starts_with`: the second argument is a leading part of the
first. -/
def starts_with (s p : List Char) : Bool := p.isPrefixOf s

/-- The filter computation from `run_app` (the `displaying_languages`
binding): the full catalog for an empty query, otherwise the
`filter_map` keeping entries whose lowercased form starts with the
lowercased query. -/
def displaying_languages (supported : List (List Char)) (input : List Char) :
    List (List Char) :=
  if input.isEmpty then supported
  else supported.filterMap fun language =>
    if starts_with (to_lowercase language) (to_lowercase input) then some language
    else none

/-- `struct App` from the source. -/
structure App where
  input : List Char
  input_mode : InputMode
  supported_languages : List (List Char)
  state_list : StatefulList (List Char)
  deriving DecidableEq, Repr

/-- Insertion step for the model of `Vec::sort`. -/
def insert_le (le : α → α → Bool) (a : α) : List α → List α
  | [] => [a]
  | b :: bs => if le a b then a :: b :: bs else b :: insert_le le a bs

/-- Model of `Vec::sort` (insertion sort; only ever applied to a concrete
three-element list, where any stable sort agrees). -/
def sort_le (le : α → α → Bool) : List α → List α
  | [] => []
  | a :: as => insert_le le a (sort_le le as)

/-- Lexicographic comparison of strings, the order `Vec<String>::sort`
sorts by. -/
def lex_le : List Char → List Char → Bool
  | [], _ => true
  | _ :: _, [] => false
  | a :: as, b :: bs => if a < b then true else if a = b then lex_le as bs else false

/-- The catalog entry "rust" as a character list. -/
def rust_s : List Char := ['r', 'u', 's', 't']

/-- The catalog entry "python" as a character list. -/
def python_s : List Char := ['p', 'y', 't', 'h', 'o', 'n']

/-- The catalog entry "php" as a character list. -/
def php_s : List Char := ['p', 'h', 'p']

/-- `App::default()`: catalog `["rust", "python", "php"]` sorted
ascending; empty input; `Normal` mode; the state list seeded with the
catalog and index 0 selected. -/
def App.default : App :=
  let supported_languages := sort_le lex_le [rust_s, python_s, php_s]
  { input := []
    input_mode := InputMode.Normal
    supported_languages := supported_languages
    state_list := StatefulList.with_items supported_languages }

/-- `crossterm::event::KeyCode`, restricted to the variants the source
matches on plus representative unhandled keys (`Enter`, `Left`,
`Right`), which all fall into the `_ => {}` arms. -/
inductive KeyCode where
  | Down
  | Up
  | Char (c : Char)
  | Backspace
  | Esc
  | Enter
  | Left
  | Right
  deriving DecidableEq, Repr

/-- `crossterm::event::Event`: a key event, or any non-key event
(mouse, resize), which the `if let Event::Key(key)` in the source
ignores. -/
inductive Event where
  | Key (code : KeyCode)
  | Mouse
  | Resize
  deriving DecidableEq, Repr

/-- Outcome of dispatching one event inside the loop body: keep looping
with a new state, `return Ok(())`, or panic (the `len() - 1`
underflow). -/
inductive StepOut where
  | cont (app : App)
  | quit
  | crash
  deriving DecidableEq, Repr

/-- The first `match key.code` in `run_app`: `Down`/`Up` call
`next`/`previous` on the state list, every other key falls through.
`none` models the panic propagating out of `next`/`previous`. -/
def nav_step (app : App) (key : KeyCode) : Option App :=
  match key with
  | KeyCode.Down => (app.state_list.next).map fun sl => { app with state_list := sl }
  | KeyCode.Up => (app.state_list.previous).map fun sl => { app with state_list := sl }
  | _ => some app

/-- Is the key one of `KeyCode::Char(_) | KeyCode::Backspace`? (the
`matches!` guard deciding whether the filter is recomputed). -/
def edit_key : KeyCode → Bool
  | KeyCode.Char _ => true
  | KeyCode.Backspace => true
  | _ => false

/-- The `if displaying_languages.len() > 0 { select(Some(0)) } else
{ unselect() }` block followed by `state_list.items = displaying_languages`
in `run_app`. -/
def reset_selection (l : StatefulList (List Char)) (items' : List (List Char)) :
    StatefulList (List Char) :=
  let l := if 0 < items'.length then { l with selected := some 0 } else l.unselect
  { l with items := items' }

/-- The `match app.input_mode` in `run_app`: mode-specific handling of
the key, after navigation has already been applied. -/
def mode_step (app : App) (key : KeyCode) : StepOut :=
  match app.input_mode with
  | InputMode.Normal =>
      match key with
      | KeyCode.Char c =>
          if c = 'e' then StepOut.cont { app with input_mode := InputMode.Editing }
          else if c = 'q' then StepOut.quit
          else StepOut.cont app
      | _ => StepOut.cont app
  | InputMode.Editing =>
      let app :=
        match key with
        | KeyCode.Char c => { app with input := app.input ++ [c] }
        | KeyCode.Backspace => { app with input := app.input.dropLast }
        | KeyCode.Esc => { app with input_mode := InputMode.Normal }
        | _ => app
      if edit_key key then
        StepOut.cont { app with
          state_list := reset_selection app.state_list
            (displaying_languages app.supported_languages app.input) }
      else StepOut.cont app

/-- One full pass of the `run_app` loop body over one input event:
non-key events are skipped by the `if let`; for a key event, navigation
is applied first, then the mode-specific match. -/
def handle_event (app : App) (ev : Event) : StepOut :=
  match ev with
  | Event.Key key =>
      match nav_step app key with
      | none => StepOut.crash
      | some app1 => mode_step app1 key
  | Event.Mouse => StepOut.cont app
  | Event.Resize => StepOut.cont app

/-- One element of the modelled input trace: a decoded event, or an I/O
error from `terminal.draw(..)?` / `event::read()?`. -/
inductive IOEvent where
  | ev (e : Event)
  | err (msg : List Char)
  deriving DecidableEq, Repr

/-- How a finite run of the loop ends: normal `Ok(())` return, a
propagated I/O error, a panic, or still looping when the trace is
exhausted. -/
inductive RunResult where
  | ok
  | ioError (msg : List Char)
  | crashed
  | pending (app : App)
  deriving DecidableEq, Repr

/-- `run_app` folded over a finite input trace: the `?` operator returns
the first I/O error unmodified; `quit` returns `Ok(())`; otherwise the
loop continues on the updated state. -/
def run_app (app : App) : List IOEvent → RunResult
  | [] => RunResult.pending app
  | IOEvent.err e :: _ => RunResult.ioError e
  | IOEvent.ev e :: rest =>
      match handle_event app e with
      | StepOut.cont app' => run_app app' rest
      | StepOut.quit => RunResult.ok
      | StepOut.crash => RunResult.crashed

/-- The cursor invariant of the spec: `selected` is `none` iff `items`
is empty, and a selected index is in range. -/
def cursor_inv (l : StatefulList α) : Bool :=
  match l.selected with
  | none => l.items.isEmpty
  | some i => decide (i < l.items.length)

/-- The weaker consistency precondition: a `some` cursor implies the
items list is non-empty (nothing required of `none`). -/
def sl_consistent (l : StatefulList α) : Bool :=
  match l.selected with
  | none => true
  | some _ => !l.items.isEmpty

/-- The cursor invariant evaluated through an `Option` result of
`next`/`previous`: `false` when the call panicked. -/
def inv_after (o : Option (StatefulList α)) : Bool :=
  match o with
  | none => false
  | some l => cursor_inv l

/-- Whether a step outcome left both the query and the visible items
unchanged (vacuously true for `quit`/`crash`, which have no state). -/
def preserves_query_items (app : App) (o : StepOut) : Bool :=
  match o with
  | StepOut.cont a =>
      decide (a.input = app.input) && decide (a.state_list.items = app.state_list.items)
  | StepOut.quit => true
  | StepOut.crash => true

/-- The default app after pressing 'e' (Editing mode, empty query). -/
def app_editing : App := { App.default with input_mode := InputMode.Editing }

/-- The default app in Editing mode with query "py". -/
def app_editing_py : App :=
  { App.default with
    input := ['p', 'y']
    input_mode := InputMode.Editing }

/-! ## Helper lemmas -/

theorem filterMap_guard (p : α → Bool) (l : List α) :
    (l.filterMap fun a => if p a then some a else none) = l.filter p := by
  induction l with
  | nil => rfl
  | cons a as ih =>
      by_cases h : p a <;> simp [List.filterMap_cons, List.filter_cons, h, ih]

theorem displaying_languages_eq_filter (supported : List (List Char)) (q : List Char) :
    displaying_languages supported q =
      (if q.isEmpty then supported
       else supported.filter fun x => starts_with (to_lowercase x) (to_lowercase q)) := by
  unfold displaying_languages
  by_cases h : q.isEmpty <;> simp [h, filterMap_guard]

theorem displaying_languages_sublist (supported : List (List Char)) (q : List Char) :
    List.Sublist (displaying_languages supported q) supported := by
  rw [displaying_languages_eq_filter]
  by_cases h : q.isEmpty <;> simp [h, List.filter_sublist]

theorem mem_displaying_languages (supported : List (List Char)) (q x : List Char)
    (hq : q.isEmpty = false) :
    x ∈ displaying_languages supported q ↔
      (x ∈ supported ∧ starts_with (to_lowercase x) (to_lowercase q) = true) := by
  rw [displaying_languages_eq_filter]
  simp [hq, List.mem_filter]

theorem reset_selection_inv (l : StatefulList (List Char)) (items' : List (List Char)) :
    cursor_inv (reset_selection l items') = true := by
  by_cases h : 0 < items'.length
  · simp [reset_selection, cursor_inv, h]
  · have h0 : items' = [] := by
      rw [← List.length_eq_zero]
      omega
    subst h0
    simp [reset_selection, StatefulList.unselect, cursor_inv]

theorem inv_after_nav (l : StatefulList (List Char)) (h : cursor_inv l = true)
    (hne : l.items ≠ []) :
    inv_after l.next = true ∧ inv_after l.previous = true := by
  obtain ⟨sel, items⟩ := l
  cases sel with
  | none =>
      simp [cursor_inv, List.isEmpty_iff] at h
      exact absurd h hne
  | some i =>
      simp only [cursor_inv, decide_eq_true_eq] at h
      have hlen : items.length ≠ 0 := by
        simp only [ne_eq, List.length_eq_zero]
        exact hne
      constructor
      · simp only [StatefulList.next, inv_after, hlen, if_false]
        by_cases hle : items.length - 1 ≤ i <;>
          simp [hle, cursor_inv] <;> omega
      · simp only [StatefulList.previous, inv_after]
        by_cases h0 : i = 0 <;> simp [h0, hlen, cursor_inv] <;> omega

theorem nav_isSome (l : StatefulList α) (h : sl_consistent l = true) :
    (l.next).isSome = true ∧ (l.previous).isSome = true := by
  obtain ⟨sel, items⟩ := l
  cases sel with
  | none => simp [StatefulList.next, StatefulList.previous]
  | some i =>
      simp only [sl_consistent, Bool.not_eq_true'] at h
      have hlen : items.length ≠ 0 := by
        simp only [ne_eq, List.length_eq_zero]
        intro hc
        subst hc
        simp at h
      constructor
      · simp [StatefulList.next, hlen]
      · by_cases h0 : i = 0 <;> simp [StatefulList.previous, h0, hlen]

theorem next_items (l : StatefulList α) (l' : StatefulList α) (h : l.next = some l') :
    l'.items = l.items := by
  obtain ⟨sel, items⟩ := l
  cases sel with
  | none =>
      simp only [StatefulList.next] at h
      cases h
      rfl
  | some i =>
      simp only [StatefulList.next] at h
      by_cases hlen : items.length = 0
      · simp [hlen] at h
      · simp only [hlen, if_false, Option.some.injEq] at h
        cases h
        rfl

theorem previous_items (l : StatefulList α) (l' : StatefulList α)
    (h : l.previous = some l') : l'.items = l.items := by
  obtain ⟨sel, items⟩ := l
  cases sel with
  | none =>
      simp only [StatefulList.previous] at h
      cases h
      rfl
  | some i =>
      simp only [StatefulList.previous] at h
      by_cases h0 : i = 0
      · by_cases hlen : items.length = 0
        · simp [h0, hlen] at h
        · simp only [h0, if_true, hlen, if_false, Option.some.injEq] at h
          cases h
          rfl
      · simp only [h0, if_false, Option.some.injEq] at h
        cases h
        rfl

theorem mode_step_nav_cont (app : App) :
    mode_step app KeyCode.Down = StepOut.cont app ∧
      mode_step app KeyCode.Up = StepOut.cont app := by
  obtain ⟨inp, mode, sup, sl⟩ := app
  cases mode <;> simp [mode_step, edit_key]

theorem mode_step_ne_crash (app : App) (key : KeyCode) :
    mode_step app key ≠ StepOut.crash := by
  obtain ⟨inp, mode, sup, sl⟩ := app
  cases mode with
  | Normal =>
      cases key <;> simp [mode_step]
      case Char c =>
        by_cases he : c = 'e' <;> by_cases hq : c = 'q' <;> simp [he, hq]
  | Editing =>
      cases key <;> simp [mode_step, edit_key]

theorem mode_step_quit_iff (app : App) (key : KeyCode) :
    mode_step app key = StepOut.quit ↔
      (app.input_mode = InputMode.Normal ∧ key = KeyCode.Char 'q') := by
  obtain ⟨inp, mode, sup, sl⟩ := app
  cases mode <;> cases key <;> simp [mode_step, edit_key]
  case Normal.Char c =>
    by_cases he : c = 'e'
    · subst he
      simp
    · by_cases hq : c = 'q' <;> simp [he, hq]

theorem nav_step_some (app : App) (key : KeyCode)
    (h : sl_consistent app.state_list = true) :
    ∃ app1, nav_step app key = some app1 ∧
      app1.input_mode = app.input_mode ∧ app1.input = app.input ∧
      app1.supported_languages = app.supported_languages ∧
      app1.state_list.items = app.state_list.items := by
  obtain ⟨hnext, hprev⟩ := nav_isSome app.state_list h
  obtain ⟨sln, hsln⟩ := Option.isSome_iff_exists.mp hnext
  obtain ⟨slp, hslp⟩ := Option.isSome_iff_exists.mp hprev
  cases key with
  | Down =>
      exact ⟨{ app with state_list := sln },
        by simp [nav_step, hsln], rfl, rfl, rfl, next_items _ _ hsln⟩
  | Up =>
      exact ⟨{ app with state_list := slp },
        by simp [nav_step, hslp], rfl, rfl, rfl, previous_items _ _ hslp⟩
  | Char c => exact ⟨app, rfl, rfl, rfl, rfl, rfl⟩
  | Backspace => exact ⟨app, rfl, rfl, rfl, rfl, rfl⟩
  | Esc => exact ⟨app, rfl, rfl, rfl, rfl, rfl⟩
  | Enter => exact ⟨app, rfl, rfl, rfl, rfl, rfl⟩
  | Left => exact ⟨app, rfl, rfl, rfl, rfl, rfl⟩
  | Right => exact ⟨app, rfl, rfl, rfl, rfl, rfl⟩

/-! ## Claims -/

/-- C1 counterexample: the state with no selection and an empty items
list satisfies the cursor invariant, yet a single `next` call yields a
`Some 0` cursor on the still-empty list, violating the invariant
(`previous` behaves the same). -/
theorem C1_counterexample :
    cursor_inv (⟨none, []⟩ : StatefulList (List Char)) = true ∧
    StatefulList.next (⟨none, []⟩ : StatefulList (List Char)) = some ⟨some 0, []⟩ ∧
    StatefulList.previous (⟨none, []⟩ : StatefulList (List Char)) = some ⟨some 0, []⟩ ∧
    cursor_inv (⟨some 0, []⟩ : StatefulList (List Char)) = false := by
  decide

/-- C1 (amended): the reset-selection step establishes the cursor
invariant from any starting state, and `next` / `previous` preserve it
from any starting state that satisfies it and whose items list is
non-empty (on an empty list with a `None` cursor they instead select
index 0, breaking the invariant — see the counterexample). -/
theorem C1_cursor_inv_preserved (l m : StatefulList (List Char))
    (items' : List (List Char)) (h : cursor_inv l = true) (hne : l.items ≠ []) :
    inv_after l.next = true ∧ inv_after l.previous = true ∧
      cursor_inv (reset_selection m items') = true :=
  ⟨(inv_after_nav l h hne).1, (inv_after_nav l h hne).2, reset_selection_inv m items'⟩

/-- C1 witness: the preservation theorem applied at a concrete state. -/
theorem C1_witness :
    cursor_inv (⟨some 0, [rust_s]⟩ : StatefulList (List Char)) = true ∧
    (⟨some 0, [rust_s]⟩ : StatefulList (List Char)).items ≠ [] ∧
    (inv_after (StatefulList.next (⟨some 0, [rust_s]⟩ : StatefulList (List Char))) = true ∧
      inv_after (StatefulList.previous (⟨some 0, [rust_s]⟩ : StatefulList (List Char))) = true ∧
      cursor_inv (reset_selection (⟨some 3, [php_s]⟩ : StatefulList (List Char)) []) = true) :=
  ⟨by decide, by decide,
    C1_cursor_inv_preserved ⟨some 0, [rust_s]⟩ ⟨some 3, [php_s]⟩ []
      (by decide) (by decide)⟩

/-- C2: the filter computation is a pure function of catalog and query:
an empty query returns the catalog unchanged; a non-empty query returns
exactly the entries whose lowercased form starts with the lowercased
query, in catalog order; and the result is always a subsequence of the
catalog (so an empty result is ordinary output, not an error). -/
theorem C2_filter_pure (catalog : List (List Char)) (q : List Char) :
    displaying_languages catalog q =
      (if q.isEmpty then catalog
       else catalog.filter fun x => starts_with (to_lowercase x) (to_lowercase q)) ∧
    List.Sublist (displaying_languages catalog q) catalog :=
  ⟨displaying_languages_eq_filter catalog q, displaying_languages_sublist catalog q⟩

/-- C3 counterexample: in the spec scenario (the catalog filtered with
query "z" gives an empty visible list and a `None` cursor), a subsequent
`next` is not a no-op: its result differs from the unchanged state. -/
theorem C3_counterexample :
    displaying_languages App.default.supported_languages (['z']) = [] ∧
    reset_selection (StatefulList.with_items App.default.supported_languages)
      (displaying_languages App.default.supported_languages (['z'])) =
      (⟨none, []⟩ : StatefulList (List Char)) ∧
    StatefulList.next (⟨none, []⟩ : StatefulList (List Char)) ≠ some ⟨none, []⟩ := by
  decide

/-- C3 (amended): with the visible list empty and the cursor `None`,
`advance` sets the cursor to `Some 0` (the `None` arm of `next` selects
index 0 unconditionally, even on an empty list) rather than staying
`None`. -/
theorem C3_advance_on_empty :
    StatefulList.next (⟨none, []⟩ : StatefulList (List Char)) = some ⟨some 0, []⟩ := by
  decide

/-- C4: in Search (`Editing`) mode, a printable character key appends
the character to the query, recomputes the visible items by the filter
at the new query, and resets the selection (index 0 when the new list is
non-empty, `None` when it is empty); Backspace symmetrically drops the
last query character (a no-op on the empty query, as `dropLast` of `[]`
is `[]`) with the same recompute-and-reset; and no other key changes the
query or the visible items (Esc changes only the mode, unhandled keys
change nothing, and the navigation keys leave query and items intact). -/
theorem C4_search_editing (app : App) (c : Char)
    (h : app.input_mode = InputMode.Editing) :
    handle_event app (Event.Key (KeyCode.Char c)) = StepOut.cont { app with
        input := app.input ++ [c],
        state_list := reset_selection app.state_list
          (displaying_languages app.supported_languages (app.input ++ [c])) } ∧
    handle_event app (Event.Key KeyCode.Backspace) = StepOut.cont { app with
        input := app.input.dropLast,
        state_list := reset_selection app.state_list
          (displaying_languages app.supported_languages app.input.dropLast) } ∧
    (reset_selection app.state_list
        (displaying_languages app.supported_languages (app.input ++ [c]))).items =
      displaying_languages app.supported_languages (app.input ++ [c]) ∧
    (reset_selection app.state_list
        (displaying_languages app.supported_languages (app.input ++ [c]))).selected =
      (if 0 < (displaying_languages app.supported_languages (app.input ++ [c])).length
        then some 0 else none) ∧
    handle_event app (Event.Key KeyCode.Esc) =
      StepOut.cont { app with input_mode := InputMode.Normal } ∧
    handle_event app (Event.Key KeyCode.Enter) = StepOut.cont app ∧
    handle_event app (Event.Key KeyCode.Left) = StepOut.cont app ∧
    handle_event app (Event.Key KeyCode.Right) = StepOut.cont app ∧
    preserves_query_items app (handle_event app (Event.Key KeyCode.Down)) = true ∧
    preserves_query_items app (handle_event app (Event.Key KeyCode.Up)) = true := by
  obtain ⟨inp, mode, sup, sl⟩ := app
  simp only at h
  subst h
  refine ⟨rfl, rfl, rfl, ?_, rfl, rfl, rfl, rfl, ?_, ?_⟩
  · by_cases hl : 0 < (displaying_languages sup (inp ++ [c])).length <;>
      simp [reset_selection, StatefulList.unselect, hl]
  · cases hn : sl.next with
    | none => simp [handle_event, nav_step, hn, preserves_query_items]
    | some sl' =>
        have hi := next_items _ _ hn
        simp [handle_event, nav_step, hn, preserves_query_items,
          (mode_step_nav_cont _).1, hi]
  · cases hn : sl.previous with
    | none => simp [handle_event, nav_step, hn, preserves_query_items]
    | some sl' =>
        have hi := previous_items _ _ hn
        simp [handle_event, nav_step, hn, preserves_query_items,
          (mode_step_nav_cont _).2, hi]

/-- C4 witness: the theorem applied to the default app switched into
Editing mode, at the character 'p'. -/
theorem C4_witness :
    app_editing.input_mode = InputMode.Editing ∧
    handle_event app_editing (Event.Key (KeyCode.Char 'p')) = StepOut.cont
      { app_editing with
        input := app_editing.input ++ ['p']
        state_list := reset_selection app_editing.state_list
          (displaying_languages app_editing.supported_languages
            (app_editing.input ++ ['p'])) } :=
  ⟨rfl, (C4_search_editing app_editing 'p' rfl).1⟩

/-- C5: pressing Esc while in Search (`Editing`) mode changes only the
mode back to `Normal`: the query, the catalog field, the visible items
and the cursor are exactly as they were at the moment of cancellation
(the record update touches no field except `input_mode`). -/
theorem C5_cancel_retains (app : App) (h : app.input_mode = InputMode.Editing) :
    handle_event app (Event.Key KeyCode.Esc) =
      StepOut.cont { app with input_mode := InputMode.Normal } := by
  obtain ⟨inp, mode, sup, sl⟩ := app
  simp only at h
  subst h
  rfl

/-- C5 witness: the theorem applied to the default app switched into
Editing mode with a non-empty query. -/
theorem C5_witness :
    app_editing_py.input_mode = InputMode.Editing ∧
    handle_event app_editing_py (Event.Key KeyCode.Esc) =
      StepOut.cont { app_editing_py with input_mode := InputMode.Normal } :=
  ⟨rfl, C5_cancel_retains app_editing_py rfl⟩

/-- C7 counterexample: on a one-element list with a `None` cursor,
`advance` followed by `retreat` ends at `Some 0`, not back at `None`, so
the round trip fails for the `None` starting cursor. -/
theorem C7_counterexample :
    (StatefulList.next (⟨none, [rust_s]⟩ : StatefulList (List Char))).bind
        StatefulList.previous = some ⟨some 0, [rust_s]⟩ ∧
    (⟨some 0, [rust_s]⟩ : StatefulList (List Char)) ≠ ⟨none, [rust_s]⟩ := by
  decide

/-- C7 (amended): on an unchanged list, `advance` then `retreat` (and
`retreat` then `advance`) return the cursor to its original value for
every starting state whose cursor is `Some i` in range (by the cursor
invariant); the round trip fails from a `None` cursor, which it turns
into `Some 0` — see the counterexample. -/
theorem C7_round_trip (l : StatefulList (List Char)) (i : Nat)
    (hs : l.selected = some i) (h : cursor_inv l = true) :
    l.next.bind StatefulList.previous = some l ∧
    l.previous.bind StatefulList.next = some l := by
  obtain ⟨sel, items⟩ := l
  simp only at hs
  subst hs
  simp only [cursor_inv, decide_eq_true_eq] at h
  have hlen : items.length ≠ 0 := by omega
  have hne : items ≠ [] := by
    intro hh
    subst hh
    simp at hlen
  constructor
  · by_cases hle : items.length - 1 ≤ i
    · have hi : i = items.length - 1 := by omega
      simp [StatefulList.next, StatefulList.previous, hlen, hle, hi, hne]
    · simp only [StatefulList.next, hlen, if_false, hle, if_true, Option.bind]
      simp [StatefulList.previous, hlen, hne]
  · by_cases h0 : i = 0
    · subst h0
      simp only [StatefulList.previous, if_true, hlen, if_false, Option.bind]
      simp [StatefulList.next, hlen, hne]
    · simp only [StatefulList.previous, h0, if_false, Option.bind]
      simp only [StatefulList.next, hlen, if_false]
      simp only [Option.some.injEq, StatefulList.mk.injEq]
      refine ⟨?_, trivial⟩
      split <;> omega

/-- C7 witness: the round-trip theorem applied on a concrete two-element
list with the cursor at index 1. -/
theorem C7_witness :
    (⟨some 1, [php_s, rust_s]⟩ : StatefulList (List Char)).selected =
      some 1 ∧
    cursor_inv (⟨some 1, [php_s, rust_s]⟩ : StatefulList (List Char)) = true ∧
    ((⟨some 1, [php_s, rust_s]⟩ : StatefulList (List Char)).next.bind
        StatefulList.previous = some ⟨some 1, [php_s, rust_s]⟩ ∧
      (⟨some 1, [php_s, rust_s]⟩ : StatefulList (List Char)).previous.bind
        StatefulList.next = some ⟨some 1, [php_s, rust_s]⟩) :=
  ⟨rfl, by decide, C7_round_trip ⟨some 1, [php_s, rust_s]⟩ 1 rfl (by decide)⟩

/-- C8: the filter is antitone under query extension: whenever `q1` is a
leading part of `q2`, every catalog entry the filter keeps for `q2` it
also keeps for `q1`. -/
theorem C8_filter_antitone (catalog : List (List Char)) (q1 q2 x : List Char)
    (hq : q1.isPrefixOf q2 = true)
    (hx : x ∈ displaying_languages catalog q2) :
    x ∈ displaying_languages catalog q1 := by
  have hpre : q1 <+: q2 := List.isPrefixOf_iff_prefix.mp hq
  by_cases h1 : q1.isEmpty
  · have h0 : q1 = [] := List.isEmpty_iff.mp h1
    subst h0
    simpa [displaying_languages] using
      (displaying_languages_sublist catalog q2).subset hx
  · have h1' : q1.isEmpty = false := Bool.eq_false_iff.mpr h1
    have h2 : q2.isEmpty = false := by
      cases q2 with
      | nil =>
          obtain ⟨t, ht⟩ := hpre
          have hq1 : q1 = [] := by
            cases List.append_eq_nil.mp ht with
            | intro ha hb => exact ha
          simp [hq1] at h1'
      | cons a as => rfl
    obtain ⟨hm, hsw⟩ := (mem_displaying_languages catalog q2 x h2).mp hx
    refine (mem_displaying_languages catalog q1 x h1').mpr ⟨hm, ?_⟩
    unfold starts_with at hsw ⊢
    rw [List.isPrefixOf_iff_prefix] at hsw ⊢
    obtain ⟨t, rfl⟩ := hpre
    have hstep : to_lowercase q1 <+: to_lowercase (q1 ++ t) := by
      unfold to_lowercase
      rw [List.map_append]
      exact List.prefix_append _ _
    exact hstep.trans hsw

/-- C8 witness: the antitonicity theorem at catalog
`["php","python","rust"]`, queries "p" and "py", entry "python". -/
theorem C8_witness :
    (['p']).isPrefixOf (['p', 'y']) = true ∧
    python_s ∈ displaying_languages App.default.supported_languages (['p', 'y']) ∧
    python_s ∈ displaying_languages App.default.supported_languages (['p']) :=
  ⟨by decide, by decide,
    C8_filter_antitone App.default.supported_languages (['p']) (['p', 'y'])
      (python_s) (by decide) (by decide)⟩

/-- C6 counterexample: from the default state, the real event sequence
'e' (enter search), 'z' (filter to empty, cursor reset to `None`), Down
(cursor becomes `Some 0` on the empty list), Down (the `len() - 1`
subtraction underflows) ends `run_app` by a panic — neither a normal
return nor a propagated I/O error — refuting "for every other event the
loop continues". -/
theorem C6_counterexample :
    run_app App.default
      [IOEvent.ev (Event.Key (KeyCode.Char 'e')),
        IOEvent.ev (Event.Key (KeyCode.Char 'z')),
        IOEvent.ev (Event.Key KeyCode.Down),
        IOEvent.ev (Event.Key KeyCode.Down)] = RunResult.crashed := by
  decide

/-- C6 (amended): the loop body signals a normal return exactly when 'q'
is pressed in `Normal` (Browse) mode; every other event continues the
loop provided a `Some` cursor implies non-empty items (without that
precondition a navigation key can abort by panic — see the
counterexample); and an I/O failure from the shell is propagated upward
unmodified as the result. -/
theorem C6_quit_iff (app : App) (ev : Event) (e : List Char) (evs : List IOEvent)
    (h : sl_consistent app.state_list = true) :
    (handle_event app ev = StepOut.quit ↔
      (app.input_mode = InputMode.Normal ∧ ev = Event.Key (KeyCode.Char 'q'))) ∧
    handle_event app ev ≠ StepOut.crash ∧
    run_app app (IOEvent.err e :: evs) = RunResult.ioError e := by
  refine ⟨?_, ?_, rfl⟩
  · cases ev with
    | Mouse => simp [handle_event]
    | Resize => simp [handle_event]
    | Key key =>
        obtain ⟨app1, hnav, hmode, _, _, _⟩ := nav_step_some app key h
        simp only [handle_event, hnav]
        rw [mode_step_quit_iff, hmode]
        simp
  · cases ev with
    | Mouse => simp [handle_event]
    | Resize => simp [handle_event]
    | Key key =>
        obtain ⟨app1, hnav, _, _, _, _⟩ := nav_step_some app key h
        simp only [handle_event, hnav]
        exact mode_step_ne_crash app1 key

/-- C6 witness: the theorem at the default state with the 'q' key and a
one-element error trace. -/
theorem C6_witness :
    sl_consistent App.default.state_list = true ∧
    handle_event App.default (Event.Key (KeyCode.Char 'q')) = StepOut.quit ∧
    run_app App.default [IOEvent.err ['E']] = RunResult.ioError ['E'] :=
  ⟨by decide,
    ((C6_quit_iff App.default (Event.Key (KeyCode.Char 'q')) ['E'] []
      (by decide)).1).mpr ⟨rfl, rfl⟩,
    (C6_quit_iff App.default (Event.Key (KeyCode.Char 'q')) ['E'] []
      (by decide)).2.2⟩

/-- C9: a navigation key (Down/Up) turns the state into exactly the
input state with the state list replaced by the `next`/`previous`
result, in either mode — so the cursor move happens and the
mode-specific match of the same event changes nothing else — and the
query and the visible items are untouched. Stated under the consistency
precondition that rules out the underflow panic. -/
theorem C9_navigation (app : App) (h : sl_consistent app.state_list = true) :
    handle_event app (Event.Key KeyCode.Down) = StepOut.cont
      { app with state_list := (app.state_list.next).getD app.state_list } ∧
    handle_event app (Event.Key KeyCode.Up) = StepOut.cont
      { app with state_list := (app.state_list.previous).getD app.state_list } ∧
    ((app.state_list.next).getD app.state_list).items = app.state_list.items ∧
    ((app.state_list.previous).getD app.state_list).items = app.state_list.items := by
  obtain ⟨hnext, hprev⟩ := nav_isSome app.state_list h
  obtain ⟨sln, hsln⟩ := Option.isSome_iff_exists.mp hnext
  obtain ⟨slp, hslp⟩ := Option.isSome_iff_exists.mp hprev
  refine ⟨?_, ?_, ?_, ?_⟩
  · simp [handle_event, nav_step, hsln,
      (mode_step_nav_cont { app with state_list := sln }).1]
  · simp [handle_event, nav_step, hslp,
      (mode_step_nav_cont { app with state_list := slp }).2]
  · rw [hsln, Option.getD_some]
    exact next_items _ _ hsln
  · rw [hslp, Option.getD_some]
    exact previous_items _ _ hslp

/-- C9 witness: the theorem at the default state (cursor moves from
`Some 0` to `Some 1` on Down, items untouched). -/
theorem C9_witness :
    sl_consistent App.default.state_list = true ∧
    handle_event App.default (Event.Key KeyCode.Down) = StepOut.cont
      { App.default with
        state_list := (App.default.state_list.next).getD App.default.state_list } ∧
    ((App.default.state_list.next).getD App.default.state_list).items =
      App.default.state_list.items :=
  ⟨by decide, (C9_navigation App.default (by decide)).1,
    (C9_navigation App.default (by decide)).2.2.1⟩

/-- C10 counterexample: the claim's precondition (a `Some` cursor
implies non-empty items) holds at the no-selection empty state, and
`next` terminates there without underflow, but the resulting selection
`Some 0` is not in range of the empty list — refuting "both calls
terminate with an in-range selection" as stated. -/
theorem C10_counterexample :
    sl_consistent (⟨none, []⟩ : StatefulList (List Char)) = true ∧
    StatefulList.next (⟨none, []⟩ : StatefulList (List Char)) = some ⟨some 0, []⟩ ∧
    inv_after (StatefulList.next (⟨none, []⟩ : StatefulList (List Char))) = false := by
  decide

/-- C10 (amended): under the precondition that a `Some` cursor implies
non-empty items, the `len() - 1` subtraction never underflows and both
`next` and `previous` terminate (return `some`); when the starting state
moreover satisfies the full cursor invariant with a non-empty list, the
resulting selection is in range; and the precondition is necessary: at
cursor `Some 0` over empty items both calls hit the underflow (`none`,
a panic in checked builds). -/
theorem C10_no_underflow (l : StatefulList (List Char))
    (h : sl_consistent l = true) :
    (l.next).isSome = true ∧ (l.previous).isSome = true ∧
    (cursor_inv l = true → l.items ≠ [] →
      inv_after l.next = true ∧ inv_after l.previous = true) ∧
    StatefulList.next (⟨some 0, []⟩ : StatefulList (List Char)) = none ∧
    StatefulList.previous (⟨some 0, []⟩ : StatefulList (List Char)) = none := by
  refine ⟨(nav_isSome l h).1, (nav_isSome l h).2, ?_, by decide, by decide⟩
  intro hinv hne
  exact inv_after_nav l hinv hne

/-- C10 witness: the theorem at the in-range cursor `Some 2` over the
three-element default catalog. -/
theorem C10_witness :
    sl_consistent
      (⟨some 2, App.default.supported_languages⟩ : StatefulList (List Char)) = true ∧
    (StatefulList.next
      (⟨some 2, App.default.supported_languages⟩ : StatefulList (List Char))).isSome =
      true ∧
    (StatefulList.previous
      (⟨some 2, App.default.supported_languages⟩ : StatefulList (List Char))).isSome =
      true :=
  ⟨by decide,
    (C10_no_underflow ⟨some 2, App.default.supported_languages⟩ (by decide)).1,
    (C10_no_underflow ⟨some 2, App.default.supported_languages⟩ (by decide)).2.1⟩

end LspInstaller
